import Mathlib


/-!
Verification development for the iobroker smart-appliances adapter.

The definitions below are a shallow embedding of the adapter's core logic:

* the cheapest-window price search (`findCheapestConsecutiveHours` in
  `main.js`, second revision, together with the washing-program planner
  `planWashingProgram` and the helper searches `_findCheapestCombinedBlock`
  and `_findCheapestBlockFrom` of the washing-machine device);
* the generic scheduling state machine of `BaseDevice.js`
  (`scheduleStartAt`, `cancelScheduledStart`, `restoreScheduledOperations`,
  the manual-edit handlers and the timer helpers);
* the dishwasher power-detection state machine of `DishwasherDevice.js`
  (`handlePowerChange`, `handleStartDetection`, `handleEndDetection`,
  `handleManualStart`, `startDevice`, `finishDevice`).

JavaScript numbers are modelled as rationals, epoch-millisecond instants as
integers (or rationals where the source mixes them into arithmetic with
fractional minute durations), and thrown errors as `Except.error`.
-/

deriving instance DecidableEq for Except

namespace SmartAppliances


/-! ## Price data model (`main.js`, Tibber price entries)

A Tibber price entry carries `startsAt` (an instant, modelled in epoch
milliseconds as a rational, since the planner mixes instants with fractional
minute durations) and `total` (the unit price). -/

structure PricePoint where
  startsAt : ℚ
  total : ℚ
  deriving DecidableEq

/-- Result shape of `findCheapestConsecutiveHours`: `{ startIndex, startTime,
endTime, avgPrice, prices }` (the `prices` field is the slice of the input
covering the block). -/
structure PriceBlock where
  startIndex : Nat
  startTime : ℚ
  endTime : ℚ
  avgPrice : ℚ
  blockPrices : List PricePoint
  deriving DecidableEq

/-- `findIndex` over the price list: index of the first entry satisfying the
predicate, as in `prices.findIndex(...)` (with `-1` modelled as `none`). -/
def findIdxP (pred : PricePoint → Bool) : List PricePoint → Option Nat
  | [] => none
  | p :: rest => if pred p then some 0 else (findIdxP pred rest).map (· + 1)

/-- The inner-loop contiguity check of the block search: every pair of
adjacent entries of the block is exactly one hour (3 600 000 ms) apart.
In the source this is `(currTime - prevTime)/(1000*60*60) !== 1`, which for
exact millisecond timestamps holds iff the difference is exactly 3 600 000. -/
def blockValid (prices : List PricePoint) (i required : Nat) : Bool :=
  (List.range (required - 1)).all fun j =>
    match prices.get? (i + j), prices.get? (i + j + 1) with
    | some a, some b => b.startsAt - a.startsAt == 3600000
    | _, _ => false

/-- The inner-loop price accumulation: `totalPrice += prices[i+j].total` for
`j = 0 .. required-1`.  The `getD 0` default is never reached for the index
ranges the outer loops use (where `i + required ≤ prices.length`). -/
def blockTotal (prices : List PricePoint) (i required : Nat) : ℚ :=
  ((List.range required).map fun j => ((prices.get? (i + j)).map PricePoint.total).getD 0).sum

/-- Average price of the candidate block starting at index `i`. -/
def blockAvg (prices : List PricePoint) (i required : Nat) : ℚ :=
  blockTotal prices i required / (required : ℚ)

/-- The `bestBlock` object built when a cheaper valid block is found:
`{ startIndex: i, startTime: prices[i].startsAt,
   endTime: prices[i + requiredHours - 1].startsAt, avgPrice,
   prices: prices.slice(i, i + requiredHours) }`. -/
def mkPriceBlock (prices : List PricePoint) (required i : Nat) : PriceBlock :=
  { startIndex := i
    startTime := ((prices.get? i).map PricePoint.startsAt).getD 0
    endTime := ((prices.get? (i + required - 1)).map PricePoint.startsAt).getD 0
    avgPrice := blockAvg prices i required
    blockPrices := (prices.drop i).take required }

/-- The `findIndex` predicate of the outer search: `entryTime > currentTime`. -/
def futureOf (currentTime : ℚ) (p : PricePoint) : Bool :=
  p.startsAt > currentTime

/-- One step of the outer loop of `findCheapestConsecutiveHours`: if the block
at `i` is valid and strictly cheaper than the best found so far
(`avgPrice < lowestAvgPrice`, with `lowestAvgPrice` initially `Infinity`,
modelled by `best = none`), it replaces the best block. -/
def considerBlock (prices : List PricePoint) (required : Nat)
    (best : Option PriceBlock) (i : Nat) : Option PriceBlock :=
  if blockValid prices i required then
    match best with
    | none => some (mkPriceBlock prices required i)
    | some b =>
        if blockAvg prices i required < b.avgPrice then some (mkPriceBlock prices required i)
        else some b
  else best

/-- The outer loop `for (i = start; i <= prices.length - requiredHours; i++)`,
written as a recursion on the number `n` of remaining candidate indices. -/
def searchBlocks (prices : List PricePoint) (required : Nat) :
    Nat → Nat → Option PriceBlock → Option PriceBlock
  | _, 0, best => best
  | i, n + 1, best => searchBlocks prices required (i + 1) n (considerBlock prices required best i)

/-- `findCheapestConsecutiveHours(prices, requiredHours)` of `main.js`
(lines 830-888 of the second revision), with the implicit `new Date()` made
an explicit `currentTime` argument.  Thrown errors are `Except.error` with
the thrown message.

The `requiredHours = 0` corner (where the JavaScript average would be the
float `NaN`) is outside the adapter's reachable inputs (`REQUIRED_HOURS`
defaults to 2 and `washHours = Math.ceil(max(1, minutes)/60) ≥ 1`); theorems
below assume `0 < requiredHours`.
The `findIndex` predicate `entryTime > currentTime` is the separate
definition `futureOf`. -/
def findCheapestConsecutiveHours (prices : List PricePoint) (requiredHours : Nat)
    (currentTime : ℚ) : Except String PriceBlock :=
  if prices.length < requiredHours then .error "Not enough price data available"
  else
    match findIdxP (futureOf currentTime) prices with
    | none => .error "No valid future time windows available"
    | some fsi =>
        if fsi + requiredHours > prices.length then .error "No valid future time windows available"
        else
          match searchBlocks prices requiredHours fsi (prices.length + 1 - requiredHours - fsi) none with
          | none => .error "No valid consecutive cheap hours found"
          | some b => .ok b

/-- A fully-covered candidate start of the search set: the block of
`required` consecutive hourly entries starting at index `i` lies entirely in
the price data (`i + required ≤ length`), starts strictly in the future, and
has no gaps. -/
def IsCandidate (prices : List PricePoint) (required : Nat) (now : ℚ) (i : Nat) : Prop :=
  i + required ≤ prices.length ∧
  (∃ p, prices.get? i = some p ∧ p.startsAt > now) ∧
  blockValid prices i required = true

/-- Chronological order of the price feed (the data model guarantees one
entry per hour boundary in ascending order). -/
def Chrono (prices : List PricePoint) : Prop :=
  prices.Pairwise (fun a b => a.startsAt < b.startsAt)

/-- Loop invariant for `searchBlocks`: after the candidate indices of
`[fsi, bound)` have been considered, `none` means none of them was a valid
block, and `some b` means `b` is the block of the smallest valid index whose
average price is minimal among considered valid indices. -/
def SearchInv (prices : List PricePoint) (required fsi bound : Nat) :
    Option PriceBlock → Prop
  | none => ∀ j, fsi ≤ j → j < bound → blockValid prices j required = false
  | some b =>
      fsi ≤ b.startIndex ∧ b.startIndex < bound ∧
      blockValid prices b.startIndex required = true ∧
      b = mkPriceBlock prices required b.startIndex ∧
      ∀ j, fsi ≤ j → j < bound → blockValid prices j required = true →
        b.avgPrice ≤ blockAvg prices j required ∧
        (blockAvg prices j required = b.avgPrice → b.startIndex ≤ j)

/-- Example price feed used as concrete witness input: four consecutive
hourly entries at 0.30, 0.10, 0.20, 0.35 (the spec's example curve). -/
def examplePrices : List PricePoint :=
  [⟨0, 3/10⟩, ⟨3600000, 1/10⟩, ⟨7200000, 2/10⟩, ⟨10800000, 35/100⟩]

/-- The block found by the search on `examplePrices` for two required hours
starting before the horizon. -/
def exampleBlock : PriceBlock :=
  { startIndex := 1
    startTime := 3600000
    endTime := 7200000
    avgPrice := 3/20
    blockPrices := [⟨3600000, 1/10⟩, ⟨7200000, 2/10⟩] }

/-! ## Washing-program planning (`src/unnamed/part_001`)

`planWashingProgram` computes the cheapest plan for a washing program,
optionally chained with a dryer run, from the hourly price feed.  The two
block helpers `_findCheapestCombinedBlock` and `_findCheapestBlockFrom`
mirror the hourly-block search; the final windows are always computed on a
minute basis from the block start. -/

/-- Result shape of the hour-block helpers:
`{ startIndex, startTime, avgPrice }`. -/
structure HourBlock where
  startIndex : Nat
  startTime : ℚ
  avgPrice : ℚ
  deriving DecidableEq

/-- The block object the hour-block helpers build for index `i`. -/
def mkHourBlock (prices : List PricePoint) (hours i : Nat) : HourBlock :=
  { startIndex := i
    startTime := ((prices.get? i).map PricePoint.startsAt).getD 0
    avgPrice := blockAvg prices i hours }

/-- Loop step shared by `_findCheapestCombinedBlock` and
`_findCheapestBlockFrom`: a gapless block with a strictly lower average
replaces the best one. -/
def considerHourBlock (prices : List PricePoint) (hours : Nat)
    (best : Option HourBlock) (i : Nat) : Option HourBlock :=
  if blockValid prices i hours then
    match best with
    | none => some (mkHourBlock prices hours i)
    | some b =>
        if blockAvg prices i hours < b.avgPrice then some (mkHourBlock prices hours i)
        else some b
  else best

/-- The helpers' loop `for (i = startIdx; i <= prices.length - hours; i++)`. -/
def searchHourBlocks (prices : List PricePoint) (hours : Nat) :
    Nat → Nat → Option HourBlock → Option HourBlock
  | _, 0, best => best
  | i, n + 1, best =>
      searchHourBlocks prices hours (i + 1) n (considerHourBlock prices hours best i)

/-- `_findCheapestCombinedBlock(prices, hours)`: cheapest gapless block of
`hours` consecutive hourly entries starting strictly in the future; a
missing future entry makes the loop empty (`startIdx = prices.length`). -/
def findCheapestCombinedBlock (prices : List PricePoint) (hours : Nat) (now : ℚ) :
    Option HourBlock :=
  let startIdx :=
    match findIdxP (futureOf now) prices with
    | some k => k
    | none => prices.length
  searchHourBlocks prices hours startIdx (prices.length + 1 - hours - startIdx) none

/-- The `findIndex` predicate of `_findCheapestBlockFrom`:
`startsAt ≥ notBefore`. -/
def fromPred (notBefore : ℚ) (p : PricePoint) : Bool :=
  p.startsAt ≥ notBefore

/-- `_findCheapestBlockFrom(prices, hours, notBefore)`: cheapest gapless
block starting no earlier than `notBefore`; `null` when no entry is late
enough. -/
def findCheapestBlockFrom (prices : List PricePoint) (hours : Nat) (notBefore : ℚ) :
    Option HourBlock :=
  match findIdxP (fromPred notBefore) prices with
  | none => none
  | some startIdx =>
      searchHourBlocks prices hours startIdx (prices.length + 1 - hours - startIdx) none

/-- `minutesToMs(m) = m * 60 * 1000`. -/
def minutesToMs (m : ℚ) : ℚ :=
  m * 60 * 1000

/-- One window of a split plan (`{ start, end, avgPrice }`; `end` is named
`endT` because `end` is reserved). -/
structure SplitWin where
  start : ℚ
  endT : ℚ
  avgPrice : ℚ
  deriving DecidableEq

/-- The three result shapes `planWashingProgram` can produce (the `washOnly`
shape carries `avgPriceDryer = 0` via the accessor below). -/
inductive PlanResult where
  | combined (startTime endTime avgPriceWash avgPriceDryer : ℚ)
  | split (startTime endTime : ℚ) (wash dryer : SplitWin) (avgPriceWash avgPriceDryer : ℚ)
  | washOnly (startTime endTime avgPriceWash : ℚ)
  deriving DecidableEq

def PlanResult.avgPriceWash : PlanResult → ℚ
  | .combined _ _ aw _ => aw
  | .split _ _ _ _ aw _ => aw
  | .washOnly _ _ aw => aw

def PlanResult.avgPriceDryer : PlanResult → ℚ
  | .combined _ _ _ ad => ad
  | .split _ _ _ _ _ ad => ad
  | .washOnly _ _ _ => 0

/-- `buildCombinedResult(block)`: end time is start plus the full
wash-plus-dry duration in minutes. -/
def buildCombinedResult (washMinutes dryMinutes : ℚ) (block : Option HourBlock) :
    Option PlanResult :=
  block.map fun b =>
    PlanResult.combined b.startTime (b.startTime + minutesToMs (washMinutes + dryMinutes))
      b.avgPrice b.avgPrice

/-- `buildSplitResult(wash, dry)`: minute-based windows for both runs, with
the safety check that the dryer must not start before the wash ends. -/
def buildSplitResult (washMinutes dryMinutes : ℚ) :
    Option PriceBlock → Option HourBlock → Option PlanResult
  | some wash, some dry =>
      let washStart := wash.startTime
      let washEnd := washStart + minutesToMs washMinutes
      let dryStart := dry.startTime
      let dryEnd := dryStart + minutesToMs dryMinutes
      if dryStart < washEnd then none
      else
        some (PlanResult.split washStart dryEnd
          ⟨washStart, washEnd, wash.avgPrice⟩ ⟨dryStart, dryEnd, dry.avgPrice⟩
          wash.avgPrice dry.avgPrice)
  | _, _ => none

/-- Step 4 of `planWashingProgram`: when both variants exist the cheaper
time-weighted average wins, the combined variant preferred on exact ties;
otherwise whichever variant exists is taken. -/
def chooseVariant (washMinutes dryMinutes : ℚ) :
    Option PlanResult → Option PlanResult → Option PlanResult
  | some c, some sp =>
      if c.avgPriceWash ≤
          (sp.avgPriceWash * washMinutes + sp.avgPriceDryer * dryMinutes) /
            (washMinutes + dryMinutes) then
        some c
      else some sp
  | some c, none => some c
  | none, some sp => some sp
  | none, none => none

/-- The dryer-chaining branch of `planWashingProgram`: combined block,
wash block (a thrown search error becomes `none` via the `try`/`catch`),
dryer block starting no earlier than the wash end, then the variant
decision. -/
def planWithDryer (prices : List PricePoint) (washMinutes dryMinutes : ℚ)
    (washHours dryerHours : Nat) (now : ℚ) : Option PlanResult :=
  chooseVariant washMinutes dryMinutes
    (buildCombinedResult washMinutes dryMinutes
      (findCheapestCombinedBlock prices (washHours + dryerHours) now))
    (buildSplitResult washMinutes dryMinutes
      (findCheapestConsecutiveHours prices washHours now).toOption
      ((findCheapestConsecutiveHours prices washHours now).toOption.bind fun wb =>
        findCheapestBlockFrom prices dryerHours (wb.startTime + minutesToMs washMinutes)))

/-- The wash-only branch of `planWashingProgram` (a thrown search error
makes the whole planning return without a result). -/
def planWashOnly (prices : List PricePoint) (washMinutes : ℚ) (washHours : Nat)
    (now : ℚ) : Option PlanResult :=
  match (findCheapestConsecutiveHours prices washHours now).toOption with
  | none => none
  | some wb =>
      some (PlanResult.washOnly wb.startTime
        (wb.startTime + minutesToMs washMinutes) wb.avgPrice)

/-- `planWashingProgram({ program, duration, dryerNeeded, dryerDuration })`
(planning core; the state writes and the notification text are outside the
model).  `washMinutes = Math.max(1, duration)`, `dryMinutes =
Math.max(1, dryerDuration)` when a dryer is chained, hours are rounded up
with `Math.ceil`, and the branch bodies are the two functions above. -/
def planWashingProgram (prices : List PricePoint) (duration : ℚ) (dryerNeeded : Bool)
    (dryerDuration : ℚ) (now : ℚ) : Option PlanResult :=
  if prices.length = 0 then none
  else if dryerNeeded then
    planWithDryer prices (max 1 duration) (max 1 dryerDuration)
      ((⌈max 1 duration / 60⌉).toNat) ((⌈max 1 dryerDuration / 60⌉).toNat) now
  else
    planWashOnly prices (max 1 duration) ((⌈max 1 duration / 60⌉).toNat) now

/-! ## Generic scheduling machinery (`BaseDevice.js`)

The persisted per-device state `(scheduled, startTime)`, the private
`_scheduledTimer` field, and the set of live runtime timeouts created for the
device's scheduled start are modelled explicitly.  Stored `startTime` strings
are abstracted to `TimeStr` (empty / parses to an instant / unparseable);
`new Date(value).getTime()` becomes `TimeStr.parse` (with `none` as `NaN`).
State-store writes, notifications and warnings are returned as an effect
list; the device-specific `performScheduledStart` callback is the `invokeStart`
effect, with a `fails : Bool` argument standing for it throwing. -/

/-- Model of a value stored in the `startTime` state. -/
inductive TimeStr
  | empty
  | valid (ms : Int)
  | invalid
  deriving DecidableEq

/-- JavaScript truthiness of the stored `startTime` value (absent state,
`null` and the empty string are falsy). -/
def timeTruthy : Option TimeStr → Bool
  | some (TimeStr.valid _) => true
  | some TimeStr.invalid => true
  | _ => false

/-- `new Date(str).getTime()`: the instant for a parseable string, `none`
for `NaN` (empty or unparseable strings, absent values). -/
def timeParse : Option TimeStr → Option Int
  | some (TimeStr.valid t) => some t
  | _ => none

/-- A live runtime timeout: its handle and its absolute due instant. -/
structure TimerRef where
  handle : Nat
  due : Int
  deriving DecidableEq

/-- State of the generic scheduling machinery of one device:
`genericScheduling` flag, the persisted `scheduled` and `startTime` store
values, the `_scheduledTimer` field (`tracked`), the list of live runtime
timeouts armed for this device's scheduled start, and a fresh-handle
counter for newly created timeouts. -/
structure BaseSched where
  genericScheduling : Bool
  scheduled : Option Bool
  startTime : Option TimeStr
  tracked : Option TimerRef
  live : List TimerRef
  fresh : Nat
  deriving DecidableEq

/-- Observable effects of a scheduling operation. -/
inductive Eff
  | setScheduled (v : Bool)
  | setStartTime (v : TimeStr)
  | notifyMsg (m : String)
  | warnMsg (m : String)
  | infoMsg (m : String)
  | invokeStart
  deriving DecidableEq

/-- `_clearScheduledTimer()`: cancel and forget the tracked timeout. -/
def clearScheduledTimer (s : BaseSched) : BaseSched :=
  match s.tracked with
  | some t =>
      { s with tracked := none, live := s.live.filter (fun u => u.handle ≠ t.handle) }
  | none => s

/-- `_setScheduledTimer(delay)`: always clears the previously tracked
timeout first, then arms a fresh one due at `now + delay`. -/
def setScheduledTimer (s : BaseSched) (now delay : Int) : BaseSched :=
  let s1 := clearScheduledTimer s
  let t : TimerRef := ⟨s1.fresh, now + delay⟩
  { s1 with tracked := some t, live := s1.live ++ [t], fresh := s1.fresh + 1 }

/-- `_executeScheduledStart()`: aborts unless the persisted `scheduled` flag
is exactly `true`; otherwise notifies, invokes the device-specific
`performScheduledStart` (which may fail; the failure is caught and logged),
and in a `finally` step writes `scheduled := false`. -/
def executeScheduledStart (s : BaseSched) (fails : Bool) : BaseSched × List Eff :=
  if s.scheduled = some true then
    ({ s with scheduled := some false },
      [Eff.notifyMsg "Executing scheduled start", Eff.invokeStart]
        ++ (if fails then [Eff.warnMsg "performScheduledStart failed"] else [])
        ++ [Eff.setScheduled false])
  else (s, [])

/-- `cancelScheduledStart(sendNotification = true)`: no-op unless generic
scheduling is enabled and the persisted flag is exactly `true`; otherwise
clears the timer, writes `scheduled := false` and optionally notifies. -/
def cancelScheduledStart (s : BaseSched) (sendNotif : Bool) : BaseSched × List Eff :=
  if !s.genericScheduling then (s, [])
  else if s.scheduled ≠ some true then (s, [])
  else
    ({ clearScheduledTimer s with scheduled := some false },
      [Eff.setScheduled false]
        ++ (if sendNotif then [Eff.notifyMsg "Scheduled start cancelled"] else []))

/-- `scheduleStartAt(startTime)`: warns and returns when generic scheduling
is disabled or the argument does not parse (`parsed = none` models a `NaN`
date); otherwise persists `startTime` and `scheduled := true` and either
executes immediately (instant in the past) or arms the timer. -/
def scheduleStartAt (s : BaseSched) (parsed : Option Int) (now : Int) (fails : Bool) :
    BaseSched × List Eff :=
  if !s.genericScheduling then
    (s, [Eff.warnMsg "scheduleStartAt called but genericScheduling not enabled"])
  else
    match parsed with
    | none => (s, [Eff.warnMsg "scheduleStartAt received invalid date"])
    | some start =>
        let s1 := { s with startTime := some (TimeStr.valid start), scheduled := some true }
        let effs := [Eff.setStartTime (TimeStr.valid start), Eff.setScheduled true]
        if start - now ≤ 0 then
          let (s2, e2) := executeScheduledStart s1 fails
          (s2, effs ++ Eff.infoMsg "Planned start time already past -> executing immediately" :: e2)
        else
          (setScheduledTimer s1 now (start - now),
            effs ++ [Eff.infoMsg "Scheduled start armed"])

/-- `restoreScheduledOperations()`: with generic scheduling enabled, a
persisted `scheduled = true` and a truthy stored `startTime`, an unparseable
instant cancels with a warning, an elapsed instant executes immediately, an
instant more than 48 h away cancels as implausible, and otherwise the timer
is re-armed for the remaining delay. -/
def restoreScheduledOperations (s : BaseSched) (now : Int) (fails : Bool) :
    BaseSched × List Eff :=
  if !s.genericScheduling then (s, [])
  else if s.scheduled = some true ∧ timeTruthy s.startTime then
    match timeParse s.startTime with
    | none =>
        let (s1, e1) := cancelScheduledStart s true
        (s1, Eff.warnMsg "Invalid stored startTime -> cancelling schedule" :: e1)
    | some start =>
        if start - now ≤ 0 then
          let (s1, e1) := executeScheduledStart s fails
          (s1, Eff.infoMsg "Stored start time already passed -> executing now" :: e1)
        else if start - now > 48 * 60 * 60 * 1000 then
          let (s1, e1) := cancelScheduledStart s true
          (s1, Eff.warnMsg "Stored start time more than 48h away -> cancelling" :: e1)
        else
          (setScheduledTimer s now (start - now), [Eff.infoMsg "Restoring scheduled start"])
  else (s, [])

/-- `_handleManualStartTimeInput(value)` (non-acknowledged write of
`startTime`): empty input is ignored; an unparseable input warns and leaves
prior state untouched; a parseable input is acknowledged as ISO text, and if
`scheduled` is `true` the timer is re-armed (or executed when past). -/
def handleManualStartTimeInput (s : BaseSched) (value : Option TimeStr) (now : Int)
    (fails : Bool) : BaseSched × List Eff :=
  match value with
  | none => (s, [])
  | some TimeStr.empty => (s, [])
  | some TimeStr.invalid => (s, [Eff.warnMsg "Invalid manual startTime ignored"])
  | some (TimeStr.valid t) =>
      let s1 := { s with startTime := some (TimeStr.valid t) }
      let effs := [Eff.setStartTime (TimeStr.valid t)]
      if s1.scheduled = some true then
        if t - now ≤ 0 then
          let (s2, e2) := executeScheduledStart s1 fails
          (s2, effs ++ e2)
        else
          (setScheduledTimer s1 now (t - now),
            effs ++ [Eff.infoMsg "Manual startTime updated -> rescheduling"])
      else
        (s1, effs ++ [Eff.infoMsg "Manual startTime stored (not scheduled yet)"])

/-- `_handleManualScheduledInput(val)` (non-acknowledged write of
`scheduled`): enabling requires a truthy, parseable stored `startTime`
(otherwise the flag is forced back to `false` with a warning); disabling
behaves like `cancelScheduledStart`. -/
def handleManualScheduledInput (s : BaseSched) (value : Option Bool) (now : Int)
    (fails : Bool) : BaseSched × List Eff :=
  match value with
  | some true =>
      if !timeTruthy s.startTime then
        ({ s with scheduled := some false },
          [Eff.warnMsg "Cannot enable scheduling - startTime empty", Eff.setScheduled false])
      else
        match timeParse s.startTime with
        | none =>
            ({ s with scheduled := some false },
              [Eff.warnMsg "Cannot enable scheduling - startTime invalid", Eff.setScheduled false])
        | some t =>
            let s1 := { s with scheduled := some true }
            let effs := [Eff.setScheduled true]
            if t - now ≤ 0 then
              let (s2, e2) := executeScheduledStart s1 fails
              (s2, effs ++ e2)
            else
              (setScheduledTimer s1 now (t - now),
                effs ++ [Eff.infoMsg "Scheduling enabled manually"])
  | some false => cancelScheduledStart s true
  | none => (s, [])

/-- `_recalculateScheduledTimer()` (acknowledged `startTime` change while
`scheduled` is `true`): unparseable stored instant cancels, an elapsed one
executes, otherwise the timer is re-armed. -/
def recalculateScheduledTimer (s : BaseSched) (now : Int) (fails : Bool) :
    BaseSched × List Eff :=
  if !timeTruthy s.startTime then (s, [])
  else
    match timeParse s.startTime with
    | none =>
        let (s1, e1) := cancelScheduledStart s true
        (s1, Eff.warnMsg "Invalid startTime on recalculation -> cancelling" :: e1)
    | some t =>
        if t - now ≤ 0 then executeScheduledStart s fails
        else
          (setScheduledTimer s now (t - now), [Eff.infoMsg "Recalculated schedule"])

/-- The runtime firing the tracked timeout: the callback clears the
`_scheduledTimer` field (and the timeout stops being pending), then runs
`_executeScheduledStart`.  Firing with no tracked timeout is a no-op
(stale-cancel safety). -/
def fireScheduledTimer (s : BaseSched) (fails : Bool) : BaseSched × List Eff :=
  match s.tracked with
  | none => (s, [])
  | some t =>
      executeScheduledStart
        { s with tracked := none, live := s.live.filter (fun u => u.handle ≠ t.handle) } fails

/-- The operations the host can perform on one device's scheduling state:
`scheduleStartAt` calls, operator (non-acknowledged) edits of `startTime`
and `scheduled`, acknowledged reactions from `onStateChange`, startup
restore, cancellation, and timer firing. -/
inductive SchedOp
  | schedule (parsed : Option Int) (now : Int) (fails : Bool)
  | manualStartTime (value : Option TimeStr) (now : Int) (fails : Bool)
  | manualScheduled (value : Option Bool) (now : Int) (fails : Bool)
  | ackScheduledFalse
  | ackStartTime (now : Int) (fails : Bool)
  | restore (now : Int) (fails : Bool)
  | cancelOp (sendNotif : Bool)
  | fire (fails : Bool)
  deriving DecidableEq

/-- Dispatch of one operation, with the `onStateChange` guards
(`genericScheduling` enabled; the acknowledged `startTime` reaction only
recalculates when `scheduled` is `true`). -/
def applyOp (s : BaseSched) : SchedOp → BaseSched × List Eff
  | SchedOp.schedule parsed now fails => scheduleStartAt s parsed now fails
  | SchedOp.manualStartTime v now fails =>
      if s.genericScheduling then handleManualStartTimeInput s v now fails else (s, [])
  | SchedOp.manualScheduled v now fails =>
      if s.genericScheduling then handleManualScheduledInput s v now fails else (s, [])
  | SchedOp.ackScheduledFalse =>
      if s.genericScheduling then cancelScheduledStart s false else (s, [])
  | SchedOp.ackStartTime now fails =>
      if s.genericScheduling ∧ s.scheduled = some true then
        recalculateScheduledTimer s now fails
      else (s, [])
  | SchedOp.restore now fails => restoreScheduledOperations s now fails
  | SchedOp.cancelOp sendNotif => cancelScheduledStart s sendNotif
  | SchedOp.fire fails => fireScheduledTimer s fails

/-- Run a sequence of operations, keeping only the state. -/
def runOps (s : BaseSched) (ops : List SchedOp) : BaseSched :=
  ops.foldl (fun st op => (applyOp st op).1) s

/-- Device state right after construction: no tracked timer and no live
timeout, arbitrary persisted values. -/
def initialSched (generic : Bool) (sched : Option Bool) (st : Option TimeStr) : BaseSched :=
  { genericScheduling := generic, scheduled := sched, startTime := st,
    tracked := none, live := [], fresh := 0 }

/-- The timer invariant: the live timeouts armed for this device's scheduled
start are exactly the tracked one (or none). -/
def TimerInv (s : BaseSched) : Prop :=
  s.live = s.tracked.elim [] (fun t => [t])

/-! ### Dishwasher scheduling cancellation (`DishwasherDevice.js` 372-387)

The dishwasher keeps its scheduled-start timeout in the adapter's keyed
timer map (`setApplianceTimer` / `clearApplianceTimer`) plus the
`scheduledStartTimer` field. -/

/-- Scheduling-related state of a dishwasher device. -/
structure DwSched where
  scheduled : Option Bool
  startTime : Option TimeStr
  scheduledStartTimer : Option Nat
  timersMap : List (String × Nat)
  deriving DecidableEq

/-- `clearApplianceTimer(key)` (map part): remove the keyed entry. -/
def clearApplianceTimer (m : List (String × Nat)) (key : String) : List (String × Nat) :=
  m.filter (fun kv => kv.1 ≠ key)

/-- Dishwasher `cancelScheduledStart()`: when the persisted flag is truthy,
write `scheduled := false` and `startTime := ""`, clear the keyed timeout if
one is tracked, and notify; otherwise do nothing. -/
def dwCancelScheduledStart (id : String) (s : DwSched) : DwSched × List Eff :=
  if s.scheduled = some true then
    let s1 := { s with scheduled := some false, startTime := some TimeStr.empty }
    let s2 :=
      if s1.scheduledStartTimer.isSome then
        { s1 with timersMap := clearApplianceTimer s1.timersMap (id ++ "_scheduled"),
                  scheduledStartTimer := none }
      else s1
    (s2, [Eff.setScheduled false, Eff.setStartTime TimeStr.empty,
          Eff.notifyMsg "Scheduled start cancelled"])
  else (s, [])

/-- Concrete scheduling state used by the witnesses: generic scheduling
enabled, `scheduled = true`, no stored `startTime`. -/
def execExample : BaseSched := initialSched true (some true) none

/-- Persisted state at process start with `startTime` exactly 48 hours in
the future of instant 0. -/
def restore48Example : BaseSched := initialSched true (some true) (some (TimeStr.valid 172800000))

/-- Persisted state at process start with `startTime` one hour in the future
of instant 0. -/
def restoreArmExample : BaseSched := initialSched true (some true) (some (TimeStr.valid 3600000))

/-! ## Dishwasher power-detection state machine (`DishwasherDevice.js`)

Power reports arrive as timestamped samples; timers are stored as absolute
due instants (arm time plus the configured duration).  The event loop is
modelled by firing every timer whose due instant has been reached before a
sample is processed (`fireDue`), the callback running at its due instant
with the power state still holding the previous report, and by letting all
remaining timers fire after the last sample (`flushTimers`).  In `fireDue`
the timers are tried in the fixed order detection, start, end, post; in
every configuration reached in the theorems below this coincides with
ascending due order (the detection timer is always armed before the start
timer, and end grace before post confirm).

`handleManualStart` switches the appliance off, raises the manual-start
signal (notification plus the `startDetected` state) and schedules
`scheduleOptimalStart` two seconds later; the model counts the switch-off
command, the signal, and the reschedule trigger, leaving the asynchronous
rescheduling continuation itself outside the power path.  The dry-reminder
timer and the notification texts carry no state relevant to the claims and
are omitted. -/

/-- Dishwasher detection parameters (constructor of `DishwasherDevice`):
threshold, debounce and grace durations in milliseconds, and whether a
`switchStateId` is configured. -/
structure DWParams where
  EPS : ℚ
  DETECT : Int
  MINRUN : Int
  ZEROGRACE : Int
  POSTCONFIRM : Int
  COOLDOWN : Int
  switchConfigured : Bool
  deriving DecidableEq

/-- A timestamped power report (ms instant, watts). -/
structure Sample where
  t : Int
  p : ℚ
  deriving DecidableEq

/-- Runtime state of a dishwasher: the persisted `running`, `scheduled`,
`startTime`, `startDetected` and `runtime` store values as the power path
reads and writes them, the `automaticStartInProgress` flag, the four
detection timers (due instants), the activity timestamps, the current
power-state value, and counters for the externally visible manual-start
actions. -/
structure DWState where
  running : Bool
  sched : Bool
  auto : Bool
  detectionTimer : Option Int
  startTimer : Option Int
  endTimer : Option Int
  postTimer : Option Int
  lastAboveZeroTs : Int
  lastFinishTs : Int
  lastPower : ℚ
  startTimeVal : Option Int
  startDetected : Bool
  runtimeMs : Option Int
  manualStartCount : Nat
  switchOffCount : Nat
  rescheduleCount : Nat
  deriving DecidableEq

/-- `clearEndTimers()`. -/
def clearEndTimers (σ : DWState) : DWState :=
  { σ with endTimer := none, postTimer := none }

/-- `handleManualStart()`: switch off (when configured), raise the
manual-start signal (`startDetected` plus notification), and trigger the
rescheduling (`setTimeout(scheduleOptimalStart, 2000)`). -/
def handleManualStart (P : DWParams) (σ : DWState) : DWState :=
  let σ1 := if P.switchConfigured then { σ with switchOffCount := σ.switchOffCount + 1 } else σ
  { σ1 with startDetected := true,
            manualStartCount := σ1.manualStartCount + 1,
            rescheduleCount := σ1.rescheduleCount + 1 }

/-- `startDevice()`: mark running, store the start instant, reset the
activity timestamp, cancel a pending schedule (which blanks the stored
`startTime` again) and clear the automatic-start flag. -/
def dwStartDevice (now : Int) (σ : DWState) : DWState :=
  let σ1 := { σ with running := true, startTimeVal := some now, lastAboveZeroTs := now }
  let σ2 := if σ1.sched then { σ1 with sched := false, startTimeVal := none } else σ1
  { σ2 with auto := false }

/-- `finishDevice()`: clear `running`, record the runtime and the finish
instant (starting the cooldown). -/
def dwFinishDevice (now : Int) (σ : DWState) : DWState :=
  { σ with running := false,
           runtimeMs := some (now - σ.startTimeVal.getD now),
           lastFinishTs := now }

/-- `handleStartDetection(power, now, isScheduled)`: inside the cooldown
nothing happens; above the threshold the manual-detection timer is armed
when no detection timer runs and neither a schedule nor an automatic start
is pending, otherwise the plain start-confirmation timer is armed when
absent; at or below the threshold both timers are cancelled. -/
def handleStartDetection (P : DWParams) (now : Int) (p : ℚ) (isSched : Bool)
    (σ : DWState) : DWState :=
  if now - σ.lastFinishTs < P.COOLDOWN then σ
  else if p > P.EPS then
    if σ.detectionTimer = none ∧ isSched = false ∧ σ.auto = false then
      { σ with detectionTimer := some (now + P.DETECT) }
    else if σ.startTimer = none then
      { σ with startTimer := some (now + P.DETECT) }
    else σ
  else
    { σ with detectionTimer := none, startTimer := none }

/-- `handleEndDetection(power, now)`: before `MIN_RUNTIME_BEFORE_END` of
runtime nothing happens; afterwards a below-threshold report with no end
timer pending arms the zero-grace timer. -/
def handleEndDetection (P : DWParams) (now : Int) (p : ℚ) (σ : DWState) : DWState :=
  if now - σ.startTimeVal.getD now < P.MINRUN then σ
  else if p ≤ P.EPS ∧ σ.endTimer = none then
    { σ with endTimer := some (now + P.ZEROGRACE) }
  else σ

/-- `handlePowerChange(power)`: an above-threshold report refreshes the
activity timestamp and cancels the end timers, then the running flag
selects end- or start-side handling (`isScheduled` is the stored value at
that moment). -/
def handlePowerChange (P : DWParams) (now : Int) (p : ℚ) (σ : DWState) : DWState :=
  let σ1 := if p > P.EPS then clearEndTimers { σ with lastAboveZeroTs := now } else σ
  if σ1.running then handleEndDetection P now p σ1
  else handleStartDetection P now p σ1.sched σ1

/-- The detection-timer callback, running at its due instant `d`: forget the
handle, re-read power and state, and on a still-sustained unscheduled signal
treat it as a manual start. -/
def fireDetection (P : DWParams) (_d : Int) (σ : DWState) : DWState :=
  let σ1 := { σ with detectionTimer := none }
  if σ1.lastPower > P.EPS ∧ σ1.running = false ∧ σ1.sched = false ∧ σ1.auto = false then
    handleManualStart P σ1
  else σ1

/-- The start-confirmation callback: on still-sustained power the device is
marked started. -/
def fireStart (P : DWParams) (d : Int) (σ : DWState) : DWState :=
  let σ1 := { σ with startTimer := none }
  if σ1.lastPower > P.EPS ∧ σ1.running = false then dwStartDevice d σ1 else σ1

/-- The zero-grace callback: with power still at or below the threshold and
no above-threshold activity for the grace period, the post-confirmation
timer is armed. -/
def fireEnd (P : DWParams) (d : Int) (σ : DWState) : DWState :=
  let σ1 := { σ with endTimer := none }
  if σ1.lastPower ≤ P.EPS ∧ P.ZEROGRACE ≤ d - σ1.lastAboveZeroTs then
    { σ1 with postTimer := some (d + P.POSTCONFIRM) }
  else σ1

/-- The post-confirmation callback: with power still at or below the
threshold the run is declared finished. -/
def firePost (P : DWParams) (d : Int) (σ : DWState) : DWState :=
  let σ1 := { σ with postTimer := none }
  if σ1.lastPower ≤ P.EPS then dwFinishDevice d σ1 else σ1

/-- Fire every timer whose due instant has been reached by wall time `t`,
before the sample arriving at `t` is processed. -/
def fireDue (P : DWParams) (t : Int) (σ : DWState) : DWState :=
  let σ1 :=
    match σ.detectionTimer with
    | some d => if d ≤ t then fireDetection P d σ else σ
    | none => σ
  let σ2 :=
    match σ1.startTimer with
    | some d => if d ≤ t then fireStart P d σ1 else σ1
    | none => σ1
  let σ3 :=
    match σ2.endTimer with
    | some d => if d ≤ t then fireEnd P d σ2 else σ2
    | none => σ2
  match σ3.postTimer with
  | some d => if d ≤ t then firePost P d σ3 else σ3
  | none => σ3

/-- After the last sample, wall time keeps advancing and every remaining
timer eventually fires at its due instant. -/
def flushTimers (P : DWParams) (σ : DWState) : DWState :=
  let σ1 :=
    match σ.detectionTimer with
    | some d => fireDetection P d σ
    | none => σ
  let σ2 :=
    match σ1.startTimer with
    | some d => fireStart P d σ1
    | none => σ1
  let σ3 :=
    match σ2.endTimer with
    | some d => fireEnd P d σ2
    | none => σ2
  match σ3.postTimer with
  | some d => firePost P d σ3
  | none => σ3

/-- Process one power report: due timers first, then the power-state value
updates, then `handlePowerChange`. -/
def stepSample (P : DWParams) (σ : DWState) (s : Sample) : DWState :=
  handlePowerChange P s.t s.p { fireDue P s.t σ with lastPower := s.p }

/-- Run the machine over a chronological report trace. -/
def dwRun (P : DWParams) (σ : DWState) (samples : List Sample) : DWState :=
  flushTimers P (samples.foldl (stepSample P) σ)

/-- An idle dishwasher right after adapter start: nothing running, no
timers, no finish recorded. -/
def dwIdle (sched auto : Bool) (lastPower : ℚ) : DWState :=
  { running := false, sched := sched, auto := auto,
    detectionTimer := none, startTimer := none, endTimer := none, postTimer := none,
    lastAboveZeroTs := 0, lastFinishTs := 0, lastPower := lastPower,
    startTimeVal := none, startDetected := false, runtimeMs := none,
    manualStartCount := 0, switchOffCount := 0, rescheduleCount := 0 }

/-- The constructor defaults of `DishwasherDevice`:
`EPS = 0.5 W`, `detectTime = 10 s`, `minRuntime = 110 min`,
`zeroGrace = 10 min`, `postConfirm = 2 min`, `cooldown = 10 min`, with a
switch configured. -/
def dwDefaults : DWParams :=
  { EPS := mkRat 1 2, DETECT := 10000, MINRUN := 6600000, ZEROGRACE := 600000,
    POSTCONFIRM := 120000, COOLDOWN := 600000, switchConfigured := true }

/-- There is a below-threshold report before `deadline`, and every report up
to and including it arrives strictly before `deadline`. -/
def dropsSoonB (P : DWParams) (deadline : Int) : List Sample → Bool
  | [] => false
  | s :: rest =>
      decide (s.t < deadline) && (if s.p > P.EPS then dropsSoonB P deadline rest else true)

/-- Every above-threshold report is followed by a drop to or below the
threshold strictly less than `DETECT` later — the debounce premise of the
spec, stated for every suffix. -/
def pulsesOk (P : DWParams) : List Sample → Bool
  | [] => true
  | s :: rest =>
      (if s.p > P.EPS then dropsSoonB P (s.t + P.DETECT) rest else true) && pulsesOk P rest

/-- What holds of an armed detection or start timer with due instant `d`
while the reports `rest` are still pending: it was armed outside the
cooldown, strictly before every pending report, and a cancelling drop
arrives before `d`. -/
def TimerOk (P : DWParams) (d : Int) (rest : List Sample) : Prop :=
  P.COOLDOWN ≤ d - P.DETECT ∧ (∀ x ∈ rest, d - P.DETECT < x.t) ∧
  dropsSoonB P d rest = true

/-- Induction invariant for the debounce theorem. -/
def C3Inv (P : DWParams) (σ : DWState) (rest : List Sample) : Prop :=
  σ.running = false ∧ σ.endTimer = none ∧ σ.postTimer = none ∧ σ.lastFinishTs = 0 ∧
  (∀ d, σ.detectionTimer = some d → TimerOk P d rest) ∧
  (∀ d, σ.startTimer = some d → TimerOk P d rest) ∧
  pulsesOk P rest = true

/-- Short manual pulse: 0.8 W for five seconds, then zero. -/
def c3Trace : List Sample := [⟨1700000000000, mkRat 4 5⟩, ⟨1700000005000, 0⟩]

/-- Power reports 0.8 W at `T0` and `T0 + 1 s`, dropping to zero at
`T0 + 12 s` — an idle appliance with no schedule pending sustaining
above-threshold power for the full 10-second detection window. -/
def c4DenseTrace : List Sample :=
  [⟨1700000000000, mkRat 4 5⟩, ⟨1700000001000, mkRat 4 5⟩, ⟨1700000012000, 0⟩]

/-! ## Theorems -/

theorem Chrono.mono {prices : List PricePoint} (h : Chrono prices) {i j : Nat}
    (hij : i ≤ j) {p q : PricePoint} (hp : prices.get? i = some p)
    (hq : prices.get? j = some q) : p.startsAt ≤ q.startsAt := by
  rcases Nat.lt_or_ge i j with hlt | hge
  · rw [List.get?_eq_some] at hp hq
    obtain ⟨hi, hpe⟩ := hp
    obtain ⟨hj, hqe⟩ := hq
    have := (List.pairwise_iff_get.mp h) ⟨i, hi⟩ ⟨j, hj⟩ hlt
    rw [hpe, hqe] at this
    exact le_of_lt this
  · have : i = j := le_antisymm hij hge
    subst this
    rw [hp] at hq
    exact le_of_eq (congrArg PricePoint.startsAt (Option.some.inj hq))

theorem findIdxP_some_get {pred : PricePoint → Bool} :
    ∀ {l : List PricePoint} {k : Nat}, findIdxP pred l = some k →
      ∃ p, l.get? k = some p ∧ pred p = true := by
  intro l
  induction l with
  | nil => intro k h; simp [findIdxP] at h
  | cons p rest ih =>
      intro k h
      by_cases hp : pred p
      · simp [findIdxP, hp] at h
        subst h
        exact ⟨p, rfl, hp⟩
      · simp [findIdxP, hp, Option.map_eq_some'] at h
        obtain ⟨k', hk', rfl⟩ := h
        obtain ⟨q, hq, hpq⟩ := ih hk'
        exact ⟨q, by simpa using hq, hpq⟩

theorem findIdxP_some_first {pred : PricePoint → Bool} :
    ∀ {l : List PricePoint} {k : Nat}, findIdxP pred l = some k →
      ∀ j, j < k → ∀ p, l.get? j = some p → pred p = false := by
  intro l
  induction l with
  | nil => intro k h; simp [findIdxP] at h
  | cons p rest ih =>
      intro k h j hj q hq
      by_cases hp : pred p
      · simp [findIdxP, hp] at h
        omega
      · simp [findIdxP, hp, Option.map_eq_some'] at h
        obtain ⟨k', hk', rfl⟩ := h
        cases j with
        | zero => simp at hq; subst hq; simpa using hp
        | succ j' => exact ih hk' j' (by omega) q (by simpa using hq)

theorem findIdxP_none {pred : PricePoint → Bool} :
    ∀ {l : List PricePoint}, findIdxP pred l = none →
      ∀ j p, l.get? j = some p → pred p = false := by
  intro l
  induction l with
  | nil => intro _ j p hp; simp at hp
  | cons q rest ih =>
      intro h j p hp
      by_cases hq : pred q
      · simp [findIdxP, hq] at h
      · simp [findIdxP, hq] at h
        cases j with
        | zero => simp at hp; subst hp; simpa using hq
        | succ j' => exact ih h j' p (by simpa using hp)

theorem considerBlock_inv {prices : List PricePoint} {required fsi i : Nat}
    {best : Option PriceBlock} (hfi : fsi ≤ i)
    (h : SearchInv prices required fsi i best) :
    SearchInv prices required fsi (i + 1) (considerBlock prices required best i) := by
  cases best with
  | none =>
      by_cases hv : blockValid prices i required
      · simp only [considerBlock, hv, if_true]
        refine ⟨hfi, Nat.lt_succ_self i, hv, rfl, ?_⟩
        intro j hfj hj hvj
        rcases Nat.lt_or_ge j i with hlt | hge
        · exact absurd hvj (by simp [h j hfj hlt])
        · have : j = i := by omega
          subst this
          exact ⟨le_refl _, fun _ => le_refl _⟩
      · simp only [considerBlock, hv, if_false]
        intro j hfj hj
        rcases Nat.lt_or_ge j i with hlt | hge
        · exact h j hfj hlt
        · have : j = i := by omega
          subst this
          exact Bool.eq_false_iff.mpr hv
  | some b =>
      obtain ⟨hb1, hb2, hb3, hb4, hb5⟩ := h
      by_cases hv : blockValid prices i required
      · by_cases hcmp : blockAvg prices i required < b.avgPrice
        · simp only [considerBlock, hv, if_true, hcmp]
          refine ⟨hfi, Nat.lt_succ_self i, hv, rfl, ?_⟩
          intro j hfj hj hvj
          rcases Nat.lt_or_ge j i with hlt | hge
          · have hmin := (hb5 j hfj hlt hvj).1
            have hmk : (mkPriceBlock prices required i).avgPrice = blockAvg prices i required := rfl
            constructor
            · rw [hmk]; exact le_trans (le_of_lt hcmp) hmin
            · intro heq
              rw [hmk] at heq
              exact absurd (lt_of_lt_of_le hcmp (heq ▸ hmin)) (lt_irrefl _)
          · have : j = i := by omega
            subst this
            exact ⟨le_refl _, fun _ => le_refl _⟩
        · simp only [considerBlock, hv, if_true, hcmp]
          refine ⟨hb1, Nat.lt_succ_of_lt hb2, hb3, hb4, ?_⟩
          intro j hfj hj hvj
          rcases Nat.lt_or_ge j i with hlt | hge
          · exact hb5 j hfj hlt hvj
          · have : j = i := by omega
            subst this
            constructor
            · exact not_lt.mp hcmp
            · intro _
              exact le_of_lt hb2
      · simp only [considerBlock, hv, if_false]
        refine ⟨hb1, Nat.lt_succ_of_lt hb2, hb3, hb4, ?_⟩
        intro j hfj hj hvj
        rcases Nat.lt_or_ge j i with hlt | hge
        · exact hb5 j hfj hlt hvj
        · have : j = i := by omega
          subst this
          exact absurd hvj (by simp [hv])

theorem searchBlocks_inv {prices : List PricePoint} {required fsi : Nat} :
    ∀ (n i : Nat) (best : Option PriceBlock), fsi ≤ i →
      SearchInv prices required fsi i best →
      SearchInv prices required fsi (i + n) (searchBlocks prices required i n best) := by
  intro n
  induction n with
  | zero => intro i best _ h; simpa [searchBlocks] using h
  | succ n ih =>
      intro i best hfi h
      have step := considerBlock_inv hfi h
      have hrec := ih (i + 1) (considerBlock prices required best i)
        (le_trans hfi (Nat.le_succ i)) step
      have heq : searchBlocks prices required i (n + 1) best
          = searchBlocks prices required (i + 1) n (considerBlock prices required best i) := rfl
      rw [heq, show i + (n + 1) = (i + 1) + n by omega]
      exact hrec

theorem findCheapest_ok_unpack {prices : List PricePoint} {required : Nat} {now : ℚ}
    {b : PriceBlock} (h : findCheapestConsecutiveHours prices required now = .ok b) :
    required ≤ prices.length ∧
    ∃ fsi, findIdxP (futureOf now) prices = some fsi ∧
      fsi + required ≤ prices.length ∧
      searchBlocks prices required fsi (prices.length + 1 - required - fsi) none = some b := by
  unfold findCheapestConsecutiveHours at h
  by_cases h1 : prices.length < required
  · simp [h1] at h
  · simp only [h1, if_false] at h
    cases hidx : findIdxP (futureOf now) prices with
    | none => rw [hidx] at h; simp at h
    | some fsi =>
        rw [hidx] at h
        by_cases h2 : fsi + required > prices.length
        · simp [h2] at h
        · simp only [h2, if_false] at h
          cases hs : searchBlocks prices required fsi (prices.length + 1 - required - fsi) none with
          | none => rw [hs] at h; simp at h
          | some b' =>
              rw [hs] at h
              simp only [Except.ok.injEq] at h
              subst h
              exact ⟨not_lt.mp h1, fsi, rfl, not_lt.mp h2, hs⟩

/-- The complete specification of a successful search, shared by the theorems
for the individual claims: the result is itself a fully-covered future
candidate, its average price is the block average at its start index, its
`startTime` is the `startsAt` of that index, and it is average-minimal among
all candidates, with ties resolved to the smallest index (and hence, for a
chronological feed, the earliest instant). -/
theorem findCheapest_ok_spec {prices : List PricePoint} {required : Nat} {now : ℚ}
    {b : PriceBlock} (hsort : Chrono prices) (hreq : 0 < required)
    (h : findCheapestConsecutiveHours prices required now = .ok b) :
    IsCandidate prices required now b.startIndex ∧
    b.avgPrice = blockAvg prices b.startIndex required ∧
    (∃ p, prices.get? b.startIndex = some p ∧ b.startTime = p.startsAt) ∧
    (∀ i, IsCandidate prices required now i →
      b.avgPrice ≤ blockAvg prices i required ∧
      (blockAvg prices i required = b.avgPrice →
        b.startIndex ≤ i ∧ ∀ p, prices.get? i = some p → b.startTime ≤ p.startsAt)) := by
  obtain ⟨hlen, fsi, hidx, hfl, hs⟩ := findCheapest_ok_unpack h
  have hinv0 : SearchInv prices required fsi fsi none := by
    intro j h1 h2; omega
  have hinv := searchBlocks_inv (prices.length + 1 - required - fsi) fsi none (le_refl fsi) hinv0
  rw [hs] at hinv
  have hbound : fsi + (prices.length + 1 - required - fsi) = prices.length + 1 - required := by
    omega
  rw [hbound] at hinv
  obtain ⟨hb1, hb2, hb3, hb4, hb5⟩ := hinv
  -- the index of the first future entry
  obtain ⟨pf, hpf, hpred⟩ := findIdxP_some_get hidx
  have hpffut : pf.startsAt > now := by simpa [futureOf] using hpred
  -- the entry at the result index
  have hidxlen : b.startIndex < prices.length := by omega
  obtain ⟨pb, hpb⟩ : ∃ p, prices.get? b.startIndex = some p :=
    ⟨_, List.get?_eq_get hidxlen⟩
  have hpbfut : pb.startsAt > now :=
    lt_of_lt_of_le hpffut (hsort.mono hb1 hpf hpb)
  have hstart : b.startTime = pb.startsAt := by
    rw [hb4]
    have hpb' : prices[b.startIndex]? = some pb := by
      rw [← List.get?_eq_getElem?]; exact hpb
    simp [mkPriceBlock, hpb']
  have hcand : IsCandidate prices required now b.startIndex :=
    ⟨by omega, ⟨pb, hpb, hpbfut⟩, hb3⟩
  have havg : b.avgPrice = blockAvg prices b.startIndex required := by
    rw [hb4]; rfl
  refine ⟨hcand, havg, ⟨pb, hpb, hstart⟩, ?_⟩
  intro i hi
  obtain ⟨hile, ⟨pi, hpi, hifut⟩, hival⟩ := hi
  have hige : fsi ≤ i := by
    by_contra hcon
    have := findIdxP_some_first hidx i (by omega) pi hpi
    rw [futureOf] at this
    simp only [decide_eq_false_iff_not, not_lt] at this
    exact absurd hifut (not_lt.mpr this)
  have hibound : i < prices.length + 1 - required := by omega
  have hmin := hb5 i hige hibound hival
  refine ⟨hmin.1, ?_⟩
  intro heq
  have hle := hmin.2 heq
  refine ⟨hle, ?_⟩
  intro p hp
  rw [hp] at hpi
  cases hpi
  rw [hstart]
  exact hsort.mono hle hpb hp

/-- C1: for a chronological price feed, whenever the cheapest-window search
returns a block, that block is a fully-covered future candidate, its average
price is less than or equal to the average of every other fully-covered
candidate start in the search set, and among candidates of equal average
cost the one with the smallest index — hence the earliest start instant —
is kept. -/
theorem claim_C1_cheapest_window_minimal (prices : List PricePoint) (required : Nat)
    (now : ℚ) (b : PriceBlock) (hsort : Chrono prices) (hreq : 0 < required)
    (h : findCheapestConsecutiveHours prices required now = .ok b) :
    IsCandidate prices required now b.startIndex ∧
    b.avgPrice = blockAvg prices b.startIndex required ∧
    (∃ p, prices.get? b.startIndex = some p ∧ b.startTime = p.startsAt) ∧
    (∀ i, IsCandidate prices required now i →
      b.avgPrice ≤ blockAvg prices i required ∧
      (blockAvg prices i required = b.avgPrice →
        b.startIndex ≤ i ∧ ∀ p, prices.get? i = some p → b.startTime ≤ p.startsAt)) :=
  findCheapest_ok_spec hsort hreq h

theorem claim_C1_witness :
    IsCandidate examplePrices 2 (-5) exampleBlock.startIndex ∧
    exampleBlock.avgPrice = blockAvg examplePrices exampleBlock.startIndex 2 ∧
    (∃ p, examplePrices.get? exampleBlock.startIndex = some p ∧
      exampleBlock.startTime = p.startsAt) ∧
    (∀ i, IsCandidate examplePrices 2 (-5) i →
      exampleBlock.avgPrice ≤ blockAvg examplePrices i 2 ∧
      (blockAvg examplePrices i 2 = exampleBlock.avgPrice →
        exampleBlock.startIndex ≤ i ∧
        ∀ p, examplePrices.get? i = some p → exampleBlock.startTime ≤ p.startsAt)) :=
  claim_C1_cheapest_window_minimal examplePrices 2 (-5) exampleBlock
    (by unfold Chrono examplePrices; norm_num [List.pairwise_cons]) (by decide)
    (by norm_num [findCheapestConsecutiveHours, findIdxP, futureOf, searchBlocks, considerBlock,
      blockValid, blockTotal, blockAvg, mkPriceBlock, examplePrices, exampleBlock,
      List.range_succ])

/-- C5 (amended): the search returns a block exactly when some fully-covered
future candidate exists; when the horizon is insufficient it signals an
error (`throw`) — which the counterexample below exhibits — rather than
returning a none-like value. -/
theorem claim_C5_ok_iff_candidate (prices : List PricePoint) (required : Nat) (now : ℚ)
    (hsort : Chrono prices) (hreq : 0 < required) :
    (∃ b, findCheapestConsecutiveHours prices required now = .ok b) ↔
    (∃ i, IsCandidate prices required now i) := by
  constructor
  · rintro ⟨b, hb⟩
    exact ⟨b.startIndex, (findCheapest_ok_spec hsort hreq hb).1⟩
  · rintro ⟨i, hile, ⟨pi, hpi, hifut⟩, hival⟩
    have hlen : required ≤ prices.length := by omega
    unfold findCheapestConsecutiveHours
    have h1 : ¬ prices.length < required := not_lt.mpr hlen
    simp only [h1, if_false]
    cases hidx : findIdxP (futureOf now) prices with
    | none =>
        exfalso
        have := findIdxP_none hidx i pi hpi
        rw [futureOf] at this
        simp only [decide_eq_false_iff_not, not_lt] at this
        exact absurd hifut (not_lt.mpr this)
    | some fsi =>
        have hige : fsi ≤ i := by
          by_contra hcon
          have := findIdxP_some_first hidx i (by omega) pi hpi
          rw [futureOf] at this
          simp only [decide_eq_false_iff_not, not_lt] at this
          exact absurd hifut (not_lt.mpr this)
        have h2 : ¬ fsi + required > prices.length := by omega
        simp only [h2, if_false]
        cases hs : searchBlocks prices required fsi (prices.length + 1 - required - fsi) none with
        | none =>
            exfalso
            have hinv0 : SearchInv prices required fsi fsi none := by
              intro j hj1 hj2; omega
            have hinv := searchBlocks_inv (prices.length + 1 - required - fsi) fsi none
              (le_refl fsi) hinv0
            rw [hs] at hinv
            have hbound : fsi + (prices.length + 1 - required - fsi) =
                prices.length + 1 - required := by omega
            rw [hbound] at hinv
            exact absurd hival (by simp [hinv i hige (by omega)])
        | some b => exact ⟨b, rfl⟩

/-- C5 counterexample to the claim as stated: for an insufficient price
horizon (one entry, two required hours) the code signals an error — the
thrown `"Not enough price data available"` — instead of returning a
none-like no-window value. -/
theorem claim_C5_counterexample :
    findCheapestConsecutiveHours [⟨0, 1⟩] 2 0 = .error "Not enough price data available" ∧
    (findCheapestConsecutiveHours [⟨0, 1⟩] 2 0).isOk = false := by
  constructor <;> rfl

theorem claim_C5_witness : ∃ i, IsCandidate examplePrices 2 (-5) i :=
  (claim_C5_ok_iff_candidate examplePrices 2 (-5)
    (by unfold Chrono examplePrices; norm_num [List.pairwise_cons]) (by decide)).mp
    ⟨exampleBlock, by norm_num [findCheapestConsecutiveHours, findIdxP, futureOf, searchBlocks,
      considerBlock, blockValid, blockTotal, blockAvg, mkPriceBlock, examplePrices, exampleBlock,
      List.range_succ]⟩

theorem buildCombinedResult_inv {wm dm : ℚ} {ob : Option HourBlock} {r : PlanResult}
    (h : buildCombinedResult wm dm ob = some r) :
    ∃ b, ob = some b ∧
      r = PlanResult.combined b.startTime (b.startTime + minutesToMs (wm + dm))
        b.avgPrice b.avgPrice := by
  cases ob with
  | none => simp [buildCombinedResult] at h
  | some b =>
      refine ⟨b, rfl, ?_⟩
      simp [buildCombinedResult] at h
      exact h.symm

theorem buildSplitResult_inv {wm dm : ℚ} {ow : Option PriceBlock} {od : Option HourBlock}
    {r : PlanResult} (h : buildSplitResult wm dm ow od = some r) :
    ∃ w d, ow = some w ∧ od = some d ∧
      ¬ d.startTime < w.startTime + minutesToMs wm ∧
      r = PlanResult.split w.startTime (d.startTime + minutesToMs dm)
        ⟨w.startTime, w.startTime + minutesToMs wm, w.avgPrice⟩
        ⟨d.startTime, d.startTime + minutesToMs dm, d.avgPrice⟩
        w.avgPrice d.avgPrice := by
  cases ow with
  | none => simp [buildSplitResult] at h
  | some w =>
      cases od with
      | none => simp [buildSplitResult] at h
      | some d =>
          by_cases hlt : d.startTime < w.startTime + minutesToMs wm
          · simp [buildSplitResult, hlt] at h
          · refine ⟨w, d, rfl, rfl, hlt, ?_⟩
            simp [buildSplitResult, hlt] at h
            exact h.symm

theorem chooseVariant_inv {wm dm : ℚ} {oc osp : Option PlanResult} {r : PlanResult}
    (h : chooseVariant wm dm oc osp = some r) : oc = some r ∨ osp = some r := by
  cases oc with
  | none =>
      cases osp with
      | none => simp [chooseVariant] at h
      | some sp => right; simpa [chooseVariant] using h
  | some c =>
      cases osp with
      | none => left; simpa [chooseVariant] using h
      | some sp =>
          simp only [chooseVariant] at h
          split at h
          · left; exact h
          · right; exact h

theorem planWithDryer_inv {prices : List PricePoint} {wm dm : ℚ} {wh dh : Nat} {now : ℚ}
    {r : PlanResult} (h : planWithDryer prices wm dm wh dh now = some r) :
    (∃ b : HourBlock,
      r = PlanResult.combined b.startTime (b.startTime + minutesToMs (wm + dm))
        b.avgPrice b.avgPrice) ∨
    (∃ (w : PriceBlock) (d : HourBlock),
      ¬ d.startTime < w.startTime + minutesToMs wm ∧
      r = PlanResult.split w.startTime (d.startTime + minutesToMs dm)
        ⟨w.startTime, w.startTime + minutesToMs wm, w.avgPrice⟩
        ⟨d.startTime, d.startTime + minutesToMs dm, d.avgPrice⟩
        w.avgPrice d.avgPrice) := by
  unfold planWithDryer at h
  rcases chooseVariant_inv h with hc | hsp
  · obtain ⟨b, _, hb⟩ := buildCombinedResult_inv hc
    exact Or.inl ⟨b, hb⟩
  · obtain ⟨w, d, _, _, hge, hr⟩ := buildSplitResult_inv hsp
    exact Or.inr ⟨w, d, hge, hr⟩

theorem planWashOnly_inv {prices : List PricePoint} {wm : ℚ} {wh : Nat} {now : ℚ}
    {r : PlanResult} (h : planWashOnly prices wm wh now = some r) :
    ∃ wb : PriceBlock,
      r = PlanResult.washOnly wb.startTime (wb.startTime + minutesToMs wm) wb.avgPrice := by
  unfold planWashOnly at h
  cases hwb : (findCheapestConsecutiveHours prices wh now).toOption with
  | none => rw [hwb] at h; simp at h
  | some wb =>
      rw [hwb] at h
      simp only [Option.some.injEq] at h
      exact ⟨wb, h.symm⟩

/-- C6: every window produced by the planner spans exactly the requested
duration in minutes: a wash-only or combined plan ends exactly
`duration` (resp. `duration + dryerDuration`) minutes after its start, and a
split plan consists of a wash window of exactly `duration` minutes and a
dryer window of exactly `dryerDuration` minutes with the dryer starting no
earlier than the wash end — minute granularity, no clamping to hour
boundaries. -/
theorem claim_C6_plan_windows (prices : List PricePoint) (duration : ℚ) (dn : Bool)
    (dd now : ℚ) (r : PlanResult) (hdur : 1 ≤ duration) (hdd : 1 ≤ dd)
    (hr : planWashingProgram prices duration dn dd now = some r) :
    (∀ st et aw, r = PlanResult.washOnly st et aw → et - st = minutesToMs duration) ∧
    (∀ st et aw ad, r = PlanResult.combined st et aw ad →
      et - st = minutesToMs (duration + dd)) ∧
    (∀ st et w d aw ad, r = PlanResult.split st et w d aw ad →
      w.endT - w.start = minutesToMs duration ∧
      d.endT - d.start = minutesToMs dd ∧
      st = w.start ∧ et = d.endT ∧ w.endT ≤ d.start) := by
  have hwm : max 1 duration = duration := max_eq_right hdur
  have hdm : max 1 dd = dd := max_eq_right hdd
  unfold planWashingProgram at hr
  rw [hwm, hdm] at hr
  by_cases hlen : prices.length = 0
  · rw [if_pos hlen] at hr
    exact absurd hr (by simp)
  · rw [if_neg hlen] at hr
    cases dn with
    | false =>
        rw [if_neg Bool.false_ne_true] at hr
        obtain ⟨wb, hro⟩ := planWashOnly_inv hr
        subst hro
        refine ⟨?_, ?_, ?_⟩
        · intro st et aw heq
          rw [PlanResult.washOnly.injEq] at heq
          obtain ⟨h1, h2, _⟩ := heq
          rw [← h1, ← h2]
          ring
        · intro st et aw ad heq
          simp at heq
        · intro st et w d aw ad heq
          simp at heq
    | true =>
        rw [if_pos rfl] at hr
        rcases planWithDryer_inv hr with ⟨b, hro⟩ | ⟨w, d, hge, hro⟩
        · subst hro
          refine ⟨?_, ?_, ?_⟩
          · intro st et aw heq
            simp at heq
          · intro st et aw ad heq
            rw [PlanResult.combined.injEq] at heq
            obtain ⟨h1, h2, _, _⟩ := heq
            rw [← h1, ← h2]
            ring
          · intro st et w d aw ad heq
            simp at heq
        · subst hro
          refine ⟨?_, ?_, ?_⟩
          · intro st et aw heq
            simp at heq
          · intro st et aw ad heq
            simp at heq
          · intro st et ww dw aw ad heq
            rw [PlanResult.split.injEq] at heq
            obtain ⟨h1, h2, h3, h4, _, _⟩ := heq
            rw [← h1, ← h2, ← h3, ← h4]
            refine ⟨by ring, by ring, rfl, rfl, ?_⟩
            exact not_lt.mp hge

theorem claim_C6_witness : (9000000 : ℚ) - 3600000 = minutesToMs 90 :=
  (claim_C6_plan_windows examplePrices 90 false 180 (-5)
      (PlanResult.washOnly 3600000 9000000 (3/20)) (by norm_num) (by norm_num)
      (by
        have hceilInt : (⌈(3 : ℚ) / 2⌉ : ℤ) = 2 := by
          rw [Int.ceil_eq_iff]
          norm_num
        have hceil : ((⌈(3 : ℚ) / 2⌉).toNat) = 2 := by
          rw [hceilInt]
          rfl
        have htn : (2 : ℤ).toNat = 2 := rfl
        norm_num [planWashingProgram, planWashOnly, hceil, hceilInt, htn, Except.toOption,
          findCheapestConsecutiveHours,
          findIdxP, futureOf, searchBlocks, considerBlock, blockValid, blockTotal, blockAvg,
          mkPriceBlock, examplePrices, minutesToMs, List.range_succ])).1
    3600000 9000000 (3/20) rfl

theorem timerInv_of_eq {s s' : BaseSched} (h : TimerInv s)
    (ht : s'.tracked = s.tracked) (hl : s'.live = s.live) : TimerInv s' := by
  unfold TimerInv at *
  rw [ht, hl]
  exact h

theorem timerInv_clear {s : BaseSched} (h : TimerInv s) :
    TimerInv (clearScheduledTimer s) := by
  cases htr : s.tracked with
  | none =>
      have he : clearScheduledTimer s = s := by
        unfold clearScheduledTimer
        rw [htr]
      rw [he]
      exact h
  | some t =>
      have hl : s.live = [t] := by
        unfold TimerInv at h
        rw [htr] at h
        simpa using h
      unfold TimerInv clearScheduledTimer
      rw [htr]
      simp [hl]

theorem clearScheduledTimer_tracked (s : BaseSched) :
    (clearScheduledTimer s).tracked = none := by
  unfold clearScheduledTimer
  cases htr : s.tracked with
  | none => exact htr
  | some t => rfl

theorem timerInv_set {s : BaseSched} (now delay : Int) (h : TimerInv s) :
    TimerInv (setScheduledTimer s now delay) := by
  have h1 := timerInv_clear h
  unfold TimerInv at h1 ⊢
  unfold setScheduledTimer
  simp [h1, clearScheduledTimer_tracked]

theorem timerInv_execute {s : BaseSched} (f : Bool) (h : TimerInv s) :
    TimerInv (executeScheduledStart s f).1 := by
  unfold executeScheduledStart
  split
  · exact timerInv_of_eq h rfl rfl
  · exact h

theorem timerInv_cancel {s : BaseSched} (b : Bool) (h : TimerInv s) :
    TimerInv (cancelScheduledStart s b).1 := by
  unfold cancelScheduledStart
  split
  · exact h
  · split
    · exact h
    · exact timerInv_of_eq (timerInv_clear h) rfl rfl

theorem timerInv_fire {s : BaseSched} (f : Bool) (h : TimerInv s) :
    TimerInv (fireScheduledTimer s f).1 := by
  unfold fireScheduledTimer
  cases htr : s.tracked with
  | none => exact h
  | some t =>
      apply timerInv_execute
      have hl : s.live = [t] := by
        unfold TimerInv at h
        rw [htr] at h
        simpa using h
      unfold TimerInv
      simp [hl]

theorem timerInv_applyOp (s : BaseSched) (op : SchedOp) (h : TimerInv s) :
    TimerInv (applyOp s op).1 := by
  cases op with
  | schedule parsed now fails =>
      simp only [applyOp]
      unfold scheduleStartAt
      split
      · exact h
      · cases parsed with
        | none => exact h
        | some start =>
            simp only
            split
            · exact timerInv_execute fails (timerInv_of_eq h rfl rfl)
            · exact timerInv_set now (start - now) (timerInv_of_eq h rfl rfl)
  | manualStartTime v now fails =>
      simp only [applyOp]
      split
      · unfold handleManualStartTimeInput
        cases v with
        | none => exact h
        | some ts =>
            cases ts with
            | empty => exact h
            | invalid => exact h
            | valid t =>
                simp only
                split
                · split
                  · exact timerInv_execute fails (timerInv_of_eq h rfl rfl)
                  · exact timerInv_set now (t - now) (timerInv_of_eq h rfl rfl)
                · exact timerInv_of_eq h rfl rfl
      · exact h
  | manualScheduled v now fails =>
      simp only [applyOp]
      split
      · unfold handleManualScheduledInput
        cases v with
        | none => exact h
        | some bv =>
            cases bv with
            | false => exact timerInv_cancel true h
            | true =>
                simp only
                split
                · exact timerInv_of_eq h rfl rfl
                · split
                  · exact timerInv_of_eq h rfl rfl
                  · split
                    · exact timerInv_execute fails (timerInv_of_eq h rfl rfl)
                    · exact timerInv_set now _ (timerInv_of_eq h rfl rfl)
      · exact h
  | ackScheduledFalse =>
      simp only [applyOp]
      split
      · exact timerInv_cancel false h
      · exact h
  | ackStartTime now fails =>
      simp only [applyOp]
      split
      · unfold recalculateScheduledTimer
        split
        · exact h
        · split
          · exact timerInv_cancel true h
          · split
            · exact timerInv_execute fails h
            · exact timerInv_set now _ h
      · exact h
  | restore now fails =>
      simp only [applyOp]
      unfold restoreScheduledOperations
      split
      · exact h
      · split
        · split
          · exact timerInv_cancel true h
          · split
            · exact timerInv_execute fails h
            · split
              · exact timerInv_cancel true h
              · exact timerInv_set now _ h
        · exact h
  | cancelOp b =>
      simp only [applyOp]
      exact timerInv_cancel b h
  | fire fails =>
      simp only [applyOp]
      exact timerInv_fire fails h

theorem timerInv_runOps (ops : List SchedOp) :
    ∀ (s : BaseSched), TimerInv s → TimerInv (runOps s ops) := by
  induction ops with
  | nil => intro s h; simpa [runOps] using h
  | cons op rest ih =>
      intro s h
      have hstep := timerInv_applyOp s op h
      have : runOps s (op :: rest) = runOps (applyOp s op).1 rest := rfl
      rw [this]
      exact ih _ hstep

/-- C7: starting from a freshly constructed device, after any sequence of
scheduling operations (scheduleAt, operator edits, acknowledged reactions,
restore, cancel, timer firing) at most one live scheduled-start timeout
exists for the device, because `_setScheduledTimer` always clears the
previously armed timeout before arming a new one. -/
theorem claim_C7_at_most_one_timer (generic : Bool) (sched : Option Bool)
    (st : Option TimeStr) (ops : List SchedOp) :
    ((runOps (initialSched generic sched st) ops).live).length ≤ 1 := by
  have h0 : TimerInv (initialSched generic sched st) := by
    unfold TimerInv initialSched
    rfl
  have h := timerInv_runOps ops _ h0
  unfold TimerInv at h
  cases htr : (runOps (initialSched generic sched st) ops).tracked with
  | none => rw [htr] at h; simp [h]
  | some t => rw [htr] at h; simp [h]

theorem cancelScheduledStart_noop {s : BaseSched} (b : Bool)
    (h : s.genericScheduling = false ∨ s.scheduled ≠ some true) :
    cancelScheduledStart s b = (s, []) := by
  unfold cancelScheduledStart
  rcases h with hg | hs
  · simp [hg]
  · simp [hs]

theorem executeScheduledStart_noop {s : BaseSched} (f : Bool)
    (hs : s.scheduled ≠ some true) : executeScheduledStart s f = (s, []) := by
  simp [executeScheduledStart, hs]

theorem executeScheduledStart_scheduled {s : BaseSched} (f : Bool)
    (hs : s.scheduled = some true) :
    (executeScheduledStart s f).1.scheduled = some false := by
  simp [executeScheduledStart, hs]

theorem executeScheduledStart_tracked (s : BaseSched) (f : Bool) :
    (executeScheduledStart s f).1.tracked = s.tracked := by
  unfold executeScheduledStart
  split <;> rfl

theorem fireScheduledTimer_tracked (s : BaseSched) (f : Bool) :
    (fireScheduledTimer s f).1.tracked = none := by
  unfold fireScheduledTimer
  cases htr : s.tracked with
  | none => exact htr
  | some t => rw [executeScheduledStart_tracked]

theorem dwCancelScheduledStart_noop (id : String) {d : DwSched}
    (hd : d.scheduled ≠ some true) : dwCancelScheduledStart id d = (d, []) := by
  simp [dwCancelScheduledStart, hd]

theorem dwCancelScheduledStart_scheduled (id : String) {d : DwSched}
    (hd : d.scheduled = some true) :
    (dwCancelScheduledStart id d).1.scheduled = some false := by
  simp only [dwCancelScheduledStart, hd, if_true]
  split <;> rfl

/-- C8: cancelling twice in a row equals cancelling once — for every
starting state the second call is a no-op that performs no state write and
emits no second cancellation notification; this holds for the generic
`BaseDevice.cancelScheduledStart` and for the dishwasher's own
`cancelScheduledStart`. -/
theorem claim_C8_cancel_idempotent (s : BaseSched) (b b' : Bool)
    (d : DwSched) (id : String) :
    cancelScheduledStart (cancelScheduledStart s b).1 b' = ((cancelScheduledStart s b).1, []) ∧
    dwCancelScheduledStart id (dwCancelScheduledStart id d).1 =
      ((dwCancelScheduledStart id d).1, []) := by
  constructor
  · by_cases hg : s.genericScheduling
    · by_cases hs : s.scheduled = some true
      · have h1 : (cancelScheduledStart s b).1 =
            { clearScheduledTimer s with scheduled := some false } := by
          simp [cancelScheduledStart, hg, hs]
        apply cancelScheduledStart_noop
        right
        rw [h1]
        simp
      · rw [cancelScheduledStart_noop b (Or.inr hs)]
        exact cancelScheduledStart_noop b' (Or.inr hs)
    · have hg' : s.genericScheduling = false := by simpa using hg
      rw [cancelScheduledStart_noop b (Or.inl hg')]
      exact cancelScheduledStart_noop b' (Or.inl hg')
  · by_cases hd : d.scheduled = some true
    · apply dwCancelScheduledStart_noop
      rw [dwCancelScheduledStart_scheduled id hd]
      simp
    · rw [dwCancelScheduledStart_noop id hd]
      exact dwCancelScheduledStart_noop id hd

/-- C9: `_executeScheduledStart` invokes the device callback exactly when the
persisted `scheduled` flag is `true`, resets `scheduled` to `false` in its
`finally` step even when the callback fails, and a second execution — or a
second timer firing — never invokes the callback again. -/
theorem claim_C9_execute_once_and_reset (s : BaseSched) (f f' : Bool) :
    (s.scheduled = some true →
      Eff.invokeStart ∈ (executeScheduledStart s f).2 ∧
      (executeScheduledStart s f).1.scheduled = some false) ∧
    Eff.invokeStart ∉ (executeScheduledStart (executeScheduledStart s f).1 f').2 ∧
    Eff.invokeStart ∉ (fireScheduledTimer (fireScheduledTimer s f).1 f').2 ∧
    ((fireScheduledTimer s f).2 ≠ [] → (fireScheduledTimer s f).1.scheduled = some false) := by
  refine ⟨?_, ?_, ?_, ?_⟩
  · intro hs
    constructor
    · simp [executeScheduledStart, hs]
    · exact executeScheduledStart_scheduled f hs
  · have hns : (executeScheduledStart s f).1.scheduled ≠ some true := by
      by_cases hs : s.scheduled = some true
      · rw [executeScheduledStart_scheduled f hs]; simp
      · rw [executeScheduledStart_noop f hs]; exact hs
    rw [executeScheduledStart_noop f' hns]
    simp
  · have h2 : (fireScheduledTimer s f).1.tracked = none := fireScheduledTimer_tracked s f
    generalize hx : (fireScheduledTimer s f).1 = x at h2 ⊢
    have h3 : fireScheduledTimer x f' = (x, []) := by
      unfold fireScheduledTimer
      rw [h2]
    rw [h3]
    simp
  · cases htr : s.tracked with
    | none =>
        intro hne
        exfalso
        apply hne
        unfold fireScheduledTimer
        rw [htr]
    | some t =>
        intro hne
        have hred : fireScheduledTimer s f =
            executeScheduledStart
              { s with tracked := none,
                       live := s.live.filter (fun u => u.handle ≠ t.handle) } f := by
          unfold fireScheduledTimer
          rw [htr]
        by_cases hs : s.scheduled = some true
        · rw [hred]
          exact executeScheduledStart_scheduled f hs
        · exfalso
          apply hne
          rw [hred]
          unfold executeScheduledStart
          simp [hs]

theorem claim_C9_witness :
    Eff.invokeStart ∈ (executeScheduledStart execExample true).2 ∧
    (executeScheduledStart execExample true).1.scheduled = some false :=
  (claim_C9_execute_once_and_reset execExample true true).1 rfl

/-- C10: calling `scheduleStartAt` with a value whose date conversion is
`NaN` (`parsed = none`) leaves the whole state — persisted fields and
timers — unchanged and emits exactly one warning. -/
theorem claim_C10_invalid_schedule_noop (s : BaseSched) (now : Int) (f : Bool) :
    (scheduleStartAt s none now f).1 = s ∧
    ((scheduleStartAt s none now f).2 = [Eff.warnMsg "scheduleStartAt received invalid date"] ∨
      (scheduleStartAt s none now f).2 =
        [Eff.warnMsg "scheduleStartAt called but genericScheduling not enabled"]) := by
  by_cases hg : s.genericScheduling
  · constructor
    · simp [scheduleStartAt, hg]
    · left
      simp [scheduleStartAt, hg]
  · constructor
    · simp [scheduleStartAt, hg]
    · right
      simp [scheduleStartAt, hg]

/-- C2 (amended): with `scheduled = true` and a stored parseable instant
`T`, `restoreScheduledOperations` executes immediately when `T ≤ now`
(resetting `scheduled`), re-arms a timer due exactly at `T` (delay `T-now`)
when `now < T ≤ now + 48h`, and cancels — clearing the flag and arming
nothing — only when `T > now + 48h` (the claim's `T ≥ now + 48h` boundary is
wrong: at exactly `now + 48h` the timer is armed, as the counterexample
shows). -/
theorem claim_C2_restore_branches (s : BaseSched) (T now : Int) (f : Bool)
    (hg : s.genericScheduling = true) (hs : s.scheduled = some true)
    (ht : s.startTime = some (TimeStr.valid T)) :
    (T ≤ now →
      restoreScheduledOperations s now f =
        ((executeScheduledStart s f).1,
          Eff.infoMsg "Stored start time already passed -> executing now" ::
            (executeScheduledStart s f).2) ∧
      (restoreScheduledOperations s now f).1.scheduled = some false) ∧
    (now < T → T - now ≤ 48 * 60 * 60 * 1000 →
      (restoreScheduledOperations s now f).1.tracked = some ⟨s.fresh, T⟩ ∧
      (restoreScheduledOperations s now f).1.scheduled = some true) ∧
    (T - now > 48 * 60 * 60 * 1000 →
      restoreScheduledOperations s now f =
        ((cancelScheduledStart s true).1,
          Eff.warnMsg "Stored start time more than 48h away -> cancelling" ::
            (cancelScheduledStart s true).2) ∧
      (restoreScheduledOperations s now f).1.scheduled = some false ∧
      (restoreScheduledOperations s now f).1.tracked = none) := by
  refine ⟨?_, ?_, ?_⟩
  · intro hpast
    have hle : T - now ≤ 0 := by omega
    constructor
    · simp [restoreScheduledOperations, hg, hs, timeTruthy, timeParse, ht, hle]
    · have h1 : (restoreScheduledOperations s now f).1 = (executeScheduledStart s f).1 := by
        simp [restoreScheduledOperations, hg, hs, timeTruthy, timeParse, ht, hle]
      rw [h1]
      simp [executeScheduledStart, hs]
  · intro hfut hnear
    have hle : ¬ T - now ≤ 0 := by omega
    have hbig : ¬ 172800000 < T - now := by omega
    have h1 : (restoreScheduledOperations s now f).1 = setScheduledTimer s now (T - now) := by
      simp [restoreScheduledOperations, hg, hs, timeTruthy, timeParse, ht, hle, hbig]
    rw [h1]
    have hfr : (clearScheduledTimer s).fresh = s.fresh := by
      unfold clearScheduledTimer
      cases htr : s.tracked <;> rfl
    have hsc : (clearScheduledTimer s).scheduled = s.scheduled := by
      unfold clearScheduledTimer
      cases htr : s.tracked <;> rfl
    constructor
    · unfold setScheduledTimer
      simp [hfr]
    · unfold setScheduledTimer
      simp [hsc, hs]
  · intro hbig
    have hle : ¬ T - now ≤ 0 := by omega
    have hbig2 : 172800000 < T - now := by omega
    constructor
    · simp [restoreScheduledOperations, hg, hs, timeTruthy, timeParse, ht, hle, hbig2]
    · have h1 : (restoreScheduledOperations s now f).1 = (cancelScheduledStart s true).1 := by
        simp [restoreScheduledOperations, hg, hs, timeTruthy, timeParse, ht, hle, hbig2]
      rw [h1]
      have h2 : (cancelScheduledStart s true).1 =
          { clearScheduledTimer s with scheduled := some false } := by
        simp [cancelScheduledStart, hg, hs]
      rw [h2]
      constructor
      · rfl
      · exact clearScheduledTimer_tracked s

/-- C2 counterexample to the claim as stated: at exactly `T = now + 48h` the
restore path arms the timer (due at `T`) and keeps `scheduled = true`
instead of cancelling. -/
theorem claim_C2_counterexample :
    (restoreScheduledOperations restore48Example 0 false).1.scheduled = some true ∧
    (restoreScheduledOperations restore48Example 0 false).1.tracked =
      some ⟨0, 172800000⟩ := by
  decide

theorem claim_C2_witness :
    (restoreScheduledOperations restoreArmExample 0 false).1.tracked = some ⟨0, 3600000⟩ ∧
    (restoreScheduledOperations restoreArmExample 0 false).1.scheduled = some true :=
  (claim_C2_restore_branches restoreArmExample 3600000 0 false rfl rfl rfl).2.1
    (by decide) (by decide)

theorem dropsSoonB_head_lt {P : DWParams} {d : Int} {s : Sample} {rest : List Sample}
    (h : dropsSoonB P d (s :: rest) = true) : s.t < d := by
  unfold dropsSoonB at h
  rw [Bool.and_eq_true] at h
  exact of_decide_eq_true h.1

theorem dropsSoonB_tail_above {P : DWParams} {d : Int} {s : Sample} {rest : List Sample}
    (h : dropsSoonB P d (s :: rest) = true) (hp : s.p > P.EPS) :
    dropsSoonB P d rest = true := by
  unfold dropsSoonB at h
  rw [Bool.and_eq_true] at h
  have h2 := h.2
  rw [if_pos hp] at h2
  exact h2

theorem pulsesOk_head {P : DWParams} {s : Sample} {rest : List Sample}
    (h : pulsesOk P (s :: rest) = true) (hp : s.p > P.EPS) :
    dropsSoonB P (s.t + P.DETECT) rest = true := by
  unfold pulsesOk at h
  rw [Bool.and_eq_true] at h
  have h1 := h.1
  rw [if_pos hp] at h1
  exact h1

theorem pulsesOk_tail {P : DWParams} {s : Sample} {rest : List Sample}
    (h : pulsesOk P (s :: rest) = true) : pulsesOk P rest = true := by
  unfold pulsesOk at h
  rw [Bool.and_eq_true] at h
  exact h.2

theorem fireDue_noop (P : DWParams) (t : Int) (σ : DWState)
    (hd : ∀ d, σ.detectionTimer = some d → ¬ d ≤ t)
    (hs : ∀ d, σ.startTimer = some d → ¬ d ≤ t)
    (he : σ.endTimer = none) (hp : σ.postTimer = none) :
    fireDue P t σ = σ := by
  unfold fireDue
  cases hdt : σ.detectionTimer with
  | none =>
      cases hst : σ.startTimer with
      | none => simp [hdt, hst, he, hp]
      | some d => simp [hdt, hst, he, hp, hs d hst]
  | some d =>
      cases hst : σ.startTimer with
      | none => simp [hdt, hst, he, hp, hd d hdt]
      | some d2 => simp [hdt, hst, he, hp, hd d hdt, hs d2 hst]

theorem flushTimers_noop (P : DWParams) (σ : DWState)
    (hd : σ.detectionTimer = none) (hs : σ.startTimer = none)
    (he : σ.endTimer = none) (hp : σ.postTimer = none) :
    flushTimers P σ = σ := by
  unfold flushTimers
  simp [hd, hs, he, hp]

theorem handlePowerChange_idle (P : DWParams) (now : Int) (p : ℚ) (σ : DWState)
    (hrun : σ.running = false) :
    handlePowerChange P now p σ =
      if p > P.EPS then
        handleStartDetection P now p σ.sched (clearEndTimers { σ with lastAboveZeroTs := now })
      else handleStartDetection P now p σ.sched σ := by
  unfold handlePowerChange
  by_cases hp : p > P.EPS
  · simp [hp, clearEndTimers, hrun]
  · simp [hp, hrun]

theorem c3_handleStart (P : DWParams) (s : Sample) (rest : List Sample) (isSched : Bool)
    (σ1 : DWState) (hmono : ∀ x ∈ rest, s.t < x.t)
    (hrun : σ1.running = false) (hend : σ1.endTimer = none) (hpost : σ1.postTimer = none)
    (hfin : σ1.lastFinishTs = 0)
    (hdet : ∀ d, σ1.detectionTimer = some d → TimerOk P d (s :: rest))
    (hstart : ∀ d, σ1.startTimer = some d → TimerOk P d (s :: rest))
    (hpok : pulsesOk P (s :: rest) = true) :
    C3Inv P (handleStartDetection P s.t s.p isSched σ1) rest := by
  unfold handleStartDetection
  by_cases hcool : s.t - σ1.lastFinishTs < P.COOLDOWN
  · rw [if_pos hcool]
    have hnd : σ1.detectionTimer = none := by
      cases hdt : σ1.detectionTimer with
      | none => rfl
      | some d =>
          exfalso
          obtain ⟨h1, h2, _⟩ := hdet d hdt
          have h3 := h2 s (List.mem_cons_self s rest)
          omega
    have hns : σ1.startTimer = none := by
      cases hst : σ1.startTimer with
      | none => rfl
      | some d =>
          exfalso
          obtain ⟨h1, h2, _⟩ := hstart d hst
          have h3 := h2 s (List.mem_cons_self s rest)
          omega
    refine ⟨hrun, hend, hpost, hfin, ?_, ?_, pulsesOk_tail hpok⟩
    · intro d hd
      rw [hnd] at hd
      cases hd
    · intro d hd
      rw [hns] at hd
      cases hd
  · rw [if_neg hcool]
    by_cases hp : s.p > P.EPS
    · rw [if_pos hp]
      by_cases harm : σ1.detectionTimer = none ∧ isSched = false ∧ σ1.auto = false
      · rw [if_pos harm]
        refine ⟨hrun, hend, hpost, hfin, ?_, ?_, pulsesOk_tail hpok⟩
        · intro d hd
          simp only [Option.some.injEq] at hd
          rw [← hd]
          refine ⟨by omega, ?_, ?_⟩
          · intro x hx
            have := hmono x hx
            omega
          · have h1 := pulsesOk_head hpok hp
            simpa using h1
        · intro d hd
          obtain ⟨h1, h2, h3⟩ := hstart d hd
          exact ⟨h1, fun x hx => h2 x (List.mem_cons_of_mem s hx),
            dropsSoonB_tail_above h3 hp⟩
      · rw [if_neg harm]
        by_cases hst : σ1.startTimer = none
        · rw [if_pos hst]
          refine ⟨hrun, hend, hpost, hfin, ?_, ?_, pulsesOk_tail hpok⟩
          · intro d hd
            obtain ⟨h1, h2, h3⟩ := hdet d hd
            exact ⟨h1, fun x hx => h2 x (List.mem_cons_of_mem s hx),
              dropsSoonB_tail_above h3 hp⟩
          · intro d hd
            simp only [Option.some.injEq] at hd
            rw [← hd]
            refine ⟨by omega, ?_, ?_⟩
            · intro x hx
              have := hmono x hx
              omega
            · have h1 := pulsesOk_head hpok hp
              simpa using h1
        · rw [if_neg hst]
          refine ⟨hrun, hend, hpost, hfin, ?_, ?_, pulsesOk_tail hpok⟩
          · intro d hd
            obtain ⟨h1, h2, h3⟩ := hdet d hd
            exact ⟨h1, fun x hx => h2 x (List.mem_cons_of_mem s hx),
              dropsSoonB_tail_above h3 hp⟩
          · intro d hd
            obtain ⟨h1, h2, h3⟩ := hstart d hd
            exact ⟨h1, fun x hx => h2 x (List.mem_cons_of_mem s hx),
              dropsSoonB_tail_above h3 hp⟩
    · rw [if_neg hp]
      refine ⟨hrun, hend, hpost, hfin, ?_, ?_, pulsesOk_tail hpok⟩
      · intro d hd
        simp at hd
      · intro d hd
        simp at hd

theorem c3_step (P : DWParams) (σ : DWState) (s : Sample) (rest : List Sample)
    (hmono : ∀ x ∈ rest, s.t < x.t)
    (hinv : C3Inv P σ (s :: rest)) : C3Inv P (stepSample P σ s) rest := by
  obtain ⟨hrun, hend, hpost, hfin, hdet, hstart, hpok⟩ := hinv
  have hnd : ∀ d, σ.detectionTimer = some d → ¬ d ≤ s.t := by
    intro d hd
    have hlt := dropsSoonB_head_lt (hdet d hd).2.2
    omega
  have hns : ∀ d, σ.startTimer = some d → ¬ d ≤ s.t := by
    intro d hd
    have hlt := dropsSoonB_head_lt (hstart d hd).2.2
    omega
  have hfd : fireDue P s.t σ = σ := fireDue_noop P s.t σ hnd hns hend hpost
  unfold stepSample
  rw [hfd]
  rw [handlePowerChange_idle P s.t s.p { σ with lastPower := s.p } hrun]
  by_cases hp : s.p > P.EPS
  · rw [if_pos hp]
    exact c3_handleStart P s rest _ _ hmono hrun rfl rfl hfin hdet hstart hpok
  · rw [if_neg hp]
    exact c3_handleStart P s rest _ _ hmono hrun hend hpost hfin hdet hstart hpok

theorem c3_run (P : DWParams) :
    ∀ (samples : List Sample) (σ : DWState),
      samples.Pairwise (fun a b => a.t < b.t) → C3Inv P σ samples →
      C3Inv P (samples.foldl (stepSample P) σ) [] := by
  intro samples
  induction samples with
  | nil => intro σ _ hinv; simpa using hinv
  | cons s rest ih =>
      intro σ hpw hinv
      have hpw' := List.pairwise_cons.mp hpw
      exact ih _ hpw'.2 (c3_step P σ s rest hpw'.1 hinv)

/-- C3: for any power report trace in which every above-threshold excursion
drops back to or below `EPS` strictly less than `detectTime` after it
begins, an idle dishwasher never transitions to `Running`: the pending
confirmation timers are cancelled and at the end no timer is left armed. -/
theorem claim_C3_detection_debounce (P : DWParams) (σ0 : DWState) (samples : List Sample)
    (hmono : samples.Pairwise (fun a b => a.t < b.t))
    (hidle : σ0.running = false) (hdet0 : σ0.detectionTimer = none)
    (hstart0 : σ0.startTimer = none) (hend0 : σ0.endTimer = none)
    (hpost0 : σ0.postTimer = none) (hfin0 : σ0.lastFinishTs = 0)
    (hok : pulsesOk P samples = true) :
    (dwRun P σ0 samples).running = false ∧
    (dwRun P σ0 samples).detectionTimer = none ∧
    (dwRun P σ0 samples).startTimer = none := by
  have hinv0 : C3Inv P σ0 samples := by
    refine ⟨hidle, hend0, hpost0, hfin0, ?_, ?_, hok⟩
    · intro d hd
      rw [hdet0] at hd
      cases hd
    · intro d hd
      rw [hstart0] at hd
      cases hd
  obtain ⟨hr, he, hp2, _, hd2, hs2, _⟩ := c3_run P samples σ0 hmono hinv0
  have hdn : (samples.foldl (stepSample P) σ0).detectionTimer = none := by
    cases hdt : (samples.foldl (stepSample P) σ0).detectionTimer with
    | none => rfl
    | some d =>
        exfalso
        have h3 := (hd2 d hdt).2.2
        simp [dropsSoonB] at h3
  have hsn : (samples.foldl (stepSample P) σ0).startTimer = none := by
    cases hst : (samples.foldl (stepSample P) σ0).startTimer with
    | none => rfl
    | some d =>
        exfalso
        have h3 := (hs2 d hst).2.2
        simp [dropsSoonB] at h3
  have hfl : dwRun P σ0 samples = samples.foldl (stepSample P) σ0 := by
    unfold dwRun
    exact flushTimers_noop P _ hdn hsn he hp2
  rw [hfl]
  exact ⟨hr, hdn, hsn⟩

theorem claim_C3_witness :
    (dwRun dwDefaults (dwIdle false false 0) c3Trace).running = false ∧
    (dwRun dwDefaults (dwIdle false false 0) c3Trace).detectionTimer = none ∧
    (dwRun dwDefaults (dwIdle false false 0) c3Trace).startTimer = none :=
  claim_C3_detection_debounce dwDefaults (dwIdle false false 0) c3Trace
    (by norm_num [c3Trace, List.pairwise_cons]) rfl rfl rfl rfl rfl rfl
    (by decide)

/-- C4 (amended): an idle appliance with no schedule pending and no
automatic start in progress that reports a single above-threshold sample,
sustained through the full detection window until a below-threshold report,
raises the manual-start signal exactly once, commands the switch off,
triggers rescheduling, and does not transition to Running.  (When further
above-threshold reports arrive during the window the parallel
start-confirmation timer is armed as well and the device can additionally
reach Running, as the counterexample shows.) -/
theorem claim_C4_manual_start (P : DWParams) (T0 T1 : Int) (p q : ℚ)
    (hg : P.switchConfigured = true) (hp : p > P.EPS) (hq : ¬ q > P.EPS)
    (hcool : P.COOLDOWN ≤ T0) (hdet0 : 0 ≤ P.DETECT) (hdue : T0 + P.DETECT ≤ T1) :
    (dwRun P (dwIdle false false 0) [⟨T0, p⟩, ⟨T1, q⟩]).manualStartCount = 1 ∧
    (dwRun P (dwIdle false false 0) [⟨T0, p⟩, ⟨T1, q⟩]).switchOffCount = 1 ∧
    (dwRun P (dwIdle false false 0) [⟨T0, p⟩, ⟨T1, q⟩]).rescheduleCount = 1 ∧
    (dwRun P (dwIdle false false 0) [⟨T0, p⟩, ⟨T1, q⟩]).startDetected = true ∧
    (dwRun P (dwIdle false false 0) [⟨T0, p⟩, ⟨T1, q⟩]).running = false := by
  have hc1 : ¬ (T0 - (0 : Int) < P.COOLDOWN) := by omega
  have hc2 : ¬ (T1 - (0 : Int) < P.COOLDOWN) := by omega
  have hc1' : ¬ (T0 < P.COOLDOWN) := by omega
  have hc2' : ¬ (T1 < P.COOLDOWN) := by omega
  refine ⟨?_, ?_, ?_, ?_, ?_⟩ <;>
    simp [dwRun, stepSample, fireDue, flushTimers, handlePowerChange, handleStartDetection,
      clearEndTimers, fireDetection, fireStart, fireEnd, firePost, handleManualStart,
      dwIdle, hp, hq, hg, hc1, hc2, hc1', hc2', hdue]

/-- C4 counterexample to the claim as stated: with a second above-threshold
report during the detection window the parallel start-confirmation timer is
armed too; it fires while power is still high, so the device, besides
raising the manual-start signal once and switching off, transitions to
Running. -/
theorem claim_C4_counterexample :
    (dwRun dwDefaults (dwIdle false false 0) c4DenseTrace).running = true ∧
    (dwRun dwDefaults (dwIdle false false 0) c4DenseTrace).manualStartCount = 1 ∧
    (dwRun dwDefaults (dwIdle false false 0) c4DenseTrace).switchOffCount = 1 := by
  decide

theorem claim_C4_witness :
    (dwRun dwDefaults (dwIdle false false 0)
      [⟨1700000000000, mkRat 4 5⟩, ⟨1700000012000, 0⟩]).manualStartCount = 1 ∧
    (dwRun dwDefaults (dwIdle false false 0)
      [⟨1700000000000, mkRat 4 5⟩, ⟨1700000012000, 0⟩]).switchOffCount = 1 ∧
    (dwRun dwDefaults (dwIdle false false 0)
      [⟨1700000000000, mkRat 4 5⟩, ⟨1700000012000, 0⟩]).rescheduleCount = 1 ∧
    (dwRun dwDefaults (dwIdle false false 0)
      [⟨1700000000000, mkRat 4 5⟩, ⟨1700000012000, 0⟩]).startDetected = true ∧
    (dwRun dwDefaults (dwIdle false false 0)
      [⟨1700000000000, mkRat 4 5⟩, ⟨1700000012000, 0⟩]).running = false :=
  claim_C4_manual_start dwDefaults 1700000000000 1700000012000 (mkRat 4 5) 0 rfl
    (by decide) (by decide) (by decide) (by decide) (by decide)

end SmartAppliances
